import Mathlib

/-!
Verification of the cleanvid interval algebra, filter-graph compilation,
pipeline orchestration and job-status tracking, as a shallow embedding of
`src/cleanvid` (models/segment.py, models/scene.py, services/scene_processor.py,
services/processing_queue.py, services/video_processor.py).  Times are modelled
as rationals; Python exceptions/validation are modelled with explicit result
types; the persisted status file is modelled as an append-only log of the
document snapshots written by `_save`.
-/

namespace Cleanvid

/-- Embeds `MuteSegment` (models/segment.py): a time segment whose audio is muted. -/
structure MuteSegment where
  start_time : ℚ
  end_time : ℚ
  word : String
  confidence : ℚ
deriving DecidableEq, Repr

/-- Embeds the `__post_init__` validation of `MuteSegment`: nonnegative start,
end strictly after start, confidence in [0,1], non-blank word. -/
def MuteSegment.ValidSeg (s : MuteSegment) : Prop :=
  0 ≤ s.start_time ∧ s.start_time < s.end_time ∧
  0 ≤ s.confidence ∧ s.confidence ≤ 1 ∧ s.word.trim ≠ ""

instance (s : MuteSegment) : Decidable s.ValidSeg := by
  unfold MuteSegment.ValidSeg; infer_instance

/-- Embeds `MuteSegment.overlaps_with`. -/
def MuteSegment.overlaps_with (a b : MuteSegment) : Prop :=
  a.start_time < b.end_time ∧ a.end_time > b.start_time

instance (a b : MuteSegment) : Decidable (a.overlaps_with b) := by
  unfold MuteSegment.overlaps_with; infer_instance

/-- Embeds `MuteSegment.is_adjacent_to`: gap is the minimum of the two one-sided
absolute gaps, default tolerance 0.1 s. -/
def MuteSegment.is_adjacent_to (a b : MuteSegment) (tolerance : ℚ := 1/10) : Prop :=
  min |a.end_time - b.start_time| |b.end_time - a.start_time| ≤ tolerance

instance (a b : MuteSegment) (tol : ℚ) : Decidable (a.is_adjacent_to b tol) := by
  unfold MuteSegment.is_adjacent_to; infer_instance

/-- Embeds `MuteSegment.merge_with`: span both, concatenate labels with `+`,
take the minimum confidence. -/
def MuteSegment.merge_with (a b : MuteSegment) : MuteSegment :=
  { start_time := min a.start_time b.start_time
    end_time := max a.end_time b.end_time
    word := a.word ++ "+" ++ b.word
    confidence := min a.confidence b.confidence }

/-- Embeds `MuteSegment.add_padding`: extend before (clamped at 0) and after. -/
def MuteSegment.add_padding (s : MuteSegment) (before after : ℚ) : MuteSegment :=
  { s with start_time := max 0 (s.start_time - before), end_time := s.end_time + after }

/-- Embeds `MuteSegment.__eq__` between two segments: equality is decided solely
by timing with a fixed 0.001 tolerance on both endpoints. -/
def MuteSegment.eqPy (a b : MuteSegment) : Prop :=
  |a.start_time - b.start_time| < 1/1000 ∧ |a.end_time - b.end_time| < 1/1000

instance (a b : MuteSegment) : Decidable (a.eqPy b) := by
  unfold MuteSegment.eqPy; infer_instance

/-- Insertion step of the stable sort by `start_time`. -/
def insertSorted (s : MuteSegment) : List MuteSegment → List MuteSegment
  | [] => [s]
  | t :: ts => if s.start_time ≤ t.start_time then s :: t :: ts else t :: insertSorted s ts

/-- Embeds Python's `sorted(segments)` under `MuteSegment.__lt__` (comparison by
`start_time` only).  Python's sort is stable, and a stable sort by a fixed key is
extensionally unique, so this insertion sort computes the same list. -/
def sortSegments : List MuteSegment → List MuteSegment
  | [] => []
  | s :: rest => insertSorted s (sortSegments rest)

/-- Embeds the accumulator loop of `merge_overlapping_segments`: the candidate
`current` merges into the last accumulator when it overlaps it or is adjacent to
it within the default tolerance, and otherwise starts a new accumulator. -/
def mergeLoop (previous : MuteSegment) : List MuteSegment → List MuteSegment
  | [] => [previous]
  | current :: rest =>
    if current.overlaps_with previous ∨ current.is_adjacent_to previous then
      mergeLoop (previous.merge_with current) rest
    else
      previous :: mergeLoop current rest

/-- Embeds `merge_overlapping_segments` (models/segment.py). -/
def merge_overlapping_segments (segments : List MuteSegment) : List MuteSegment :=
  match sortSegments segments with
  | [] => []
  | h :: t => mergeLoop h t

/-- Embeds `add_padding_to_segments`: pad every segment by the millisecond
amounts converted to seconds, then re-merge. -/
def add_padding_to_segments (segments : List MuteSegment)
    (before_ms : ℤ := 500) (after_ms : ℤ := 500) : List MuteSegment :=
  merge_overlapping_segments
    (segments.map (fun s => s.add_padding ((before_ms : ℚ) / 1000) ((after_ms : ℚ) / 1000)))

/-! Invariants of the merge scan. -/

/-- Strict separation of two segments: the right one starts more than the
0.1 s tolerance after the left one ends, and both are properly ordered in time.
This is the relation the merge scan establishes between its outputs. -/
def SepV (a b : MuteSegment) : Prop :=
  a.end_time + 1/10 < b.start_time ∧
  a.start_time < a.end_time ∧ b.start_time < b.end_time

theorem SepV.trans' {a b c : MuteSegment} (hab : SepV a b) (hbc : SepV b c) : SepV a c := by
  obtain ⟨h₁, ha, hb⟩ := hab
  obtain ⟨h₂, _, hc⟩ := hbc
  exact ⟨by linarith, ha, hc⟩

theorem insertSorted_mem {x s : MuteSegment} {l : List MuteSegment} :
    x ∈ insertSorted s l ↔ x = s ∨ x ∈ l := by
  induction l with
  | nil => simp [insertSorted]
  | cons t ts ih =>
    by_cases h : s.start_time ≤ t.start_time
    · simp [insertSorted, h]
    · simp [insertSorted, h, ih]
      tauto

theorem sortSegments_mem {x : MuteSegment} {l : List MuteSegment} :
    x ∈ sortSegments l ↔ x ∈ l := by
  induction l with
  | nil => simp [sortSegments]
  | cons s rest ih => simp [sortSegments, insertSorted_mem, ih]

/-- The insertion step preserves sortedness by `start_time`. -/
theorem insertSorted_pairwise {s : MuteSegment} {l : List MuteSegment}
    (h : l.Pairwise (fun a b => a.start_time ≤ b.start_time)) :
    (insertSorted s l).Pairwise (fun a b => a.start_time ≤ b.start_time) := by
  induction l with
  | nil => simp [insertSorted]
  | cons t ts ih =>
    rw [List.pairwise_cons] at h
    by_cases hle : s.start_time ≤ t.start_time
    · rw [insertSorted, if_pos hle, List.pairwise_cons]
      refine ⟨?_, List.pairwise_cons.2 h⟩
      intro b hb
      rcases List.mem_cons.1 hb with hb | hb
      · exact hb ▸ hle
      · exact le_trans hle (h.1 b hb)
    · rw [insertSorted, if_neg hle, List.pairwise_cons]
      refine ⟨?_, ih h.2⟩
      intro b hb
      rcases insertSorted_mem.1 hb with hb | hb
      · exact hb ▸ le_of_not_le hle
      · exact h.1 b hb

theorem sortSegments_pairwise (l : List MuteSegment) :
    (sortSegments l).Pairwise (fun a b => a.start_time ≤ b.start_time) := by
  induction l with
  | nil => simp [sortSegments]
  | cons s rest ih => exact insertSorted_pairwise ih

/-- Sorting an already start-ascending list is the identity. -/
theorem sortSegments_eq_self {l : List MuteSegment}
    (h : l.Pairwise (fun a b => a.start_time ≤ b.start_time)) :
    sortSegments l = l := by
  induction l with
  | nil => rfl
  | cons s rest ih =>
    rw [List.pairwise_cons] at h
    rw [sortSegments, ih h.2]
    cases rest with
    | nil => rfl
    | cons t ts => rw [insertSorted, if_pos (h.1 t (by simp))]

/-- The merge scan produces a nonempty list headed at the accumulator's start,
chained by strict separation, with every output properly ordered in time. -/
theorem mergeLoop_spec (l : List MuteSegment) :
    ∀ acc : MuteSegment,
    acc.start_time < acc.end_time →
    (∀ s ∈ l, s.start_time < s.end_time) →
    (∀ s ∈ l, acc.start_time ≤ s.start_time) →
    l.Pairwise (fun a b => a.start_time ≤ b.start_time) →
    ∃ hd tl, mergeLoop acc l = hd :: tl ∧ hd.start_time = acc.start_time ∧
      List.Chain' SepV (hd :: tl) ∧ ∀ s ∈ hd :: tl, s.start_time < s.end_time := by
  induction l with
  | nil =>
    intro acc hacc _ _ _
    exact ⟨acc, [], rfl, rfl, List.chain'_singleton acc, by simpa using hacc⟩
  | cons c rest ih =>
    intro acc hacc hval hle hpair
    have hc : c.start_time < c.end_time := hval c (by simp)
    have hacc_c : acc.start_time ≤ c.start_time := hle c (by simp)
    rw [List.pairwise_cons] at hpair
    by_cases hcond : c.overlaps_with acc ∨ c.is_adjacent_to acc
    · rw [mergeLoop, if_pos hcond]
      obtain ⟨hd, tl, heq, hhd, hchain, hv⟩ := ih (acc.merge_with c)
        (lt_of_le_of_lt (min_le_left _ _) (lt_of_lt_of_le hacc (le_max_left _ _)))
        (fun s hs => hval s (List.mem_cons_of_mem _ hs))
        (fun s hs => le_trans (min_le_left _ _) (hle s (List.mem_cons_of_mem _ hs)))
        hpair.2
      refine ⟨hd, tl, heq, ?_, hchain, hv⟩
      rw [hhd]
      exact min_eq_left hacc_c
    · have hov : ¬ c.overlaps_with acc := fun h => hcond (Or.inl h)
      have hadj : ¬ c.is_adjacent_to acc := fun h => hcond (Or.inr h)
      have hce : acc.end_time ≤ c.start_time := by
        by_contra hlt
        exact hov ⟨lt_of_not_le hlt, by linarith⟩
      have hgap : acc.end_time + 1/10 < c.start_time := by
        rw [MuteSegment.is_adjacent_to, not_le, lt_min_iff] at hadj
        have habs : |acc.end_time - c.start_time| = c.start_time - acc.end_time := by
          rw [abs_sub_comm]
          exact abs_of_nonneg (by linarith)
        rw [habs] at hadj
        linarith [hadj.2]
      obtain ⟨hd, tl, heq, hhd, hchain, hv⟩ := ih c hc
        (fun s hs => hval s (List.mem_cons_of_mem _ hs)) hpair.1 hpair.2
      refine ⟨acc, hd :: tl, by rw [mergeLoop, if_neg hcond, heq], rfl, ?_, ?_⟩
      · refine List.chain'_cons.2 ⟨⟨?_, hacc, hv hd (by simp)⟩, hchain⟩
        rw [hhd]
        exact hgap
      · intro s hs
        rcases List.mem_cons.1 hs with hs | hs
        · exact hs ▸ hacc
        · exact hv s hs

/-- A chain of strictly separated segments is pairwise strictly separated. -/
theorem chainSepV_pairwise {l : List MuteSegment} (h : List.Chain' SepV l) :
    l.Pairwise SepV := by
  induction l with
  | nil => simp
  | cons a t ih =>
    rw [List.chain'_cons'] at h
    refine List.pairwise_cons.2 ⟨?_, ih h.2⟩
    intro b hb
    cases t with
    | nil => simp at hb
    | cons c ts =>
      have hac : SepV a c := h.1 c rfl
      have hpt := ih h.2
      rcases List.mem_cons.1 hb with hb | hb
      · exact hb ▸ hac
      · exact hac.trans' ((List.pairwise_cons.1 hpt).1 b hb)

/-- On a strictly separated list the merge scan appends every candidate. -/
theorem mergeLoop_of_chain (l : List MuteSegment) :
    ∀ acc : MuteSegment, List.Chain' SepV (acc :: l) → mergeLoop acc l = acc :: l := by
  induction l with
  | nil => intro acc _; rfl
  | cons c rest ih =>
    intro acc h
    rw [List.chain'_cons] at h
    obtain ⟨⟨hsep, hacc, hc⟩, hchain⟩ := h
    have hten : (0:ℚ) < 1/10 := by norm_num
    have hcond : ¬ (c.overlaps_with acc ∨ c.is_adjacent_to acc) := by
      rintro (⟨h1, _⟩ | hadj)
      · linarith
      · rw [MuteSegment.is_adjacent_to, min_le_iff] at hadj
        have h1 : |acc.end_time - c.start_time| = c.start_time - acc.end_time := by
          rw [abs_sub_comm]
          exact abs_of_nonneg (by linarith)
        have h2 : |c.end_time - acc.start_time| = c.end_time - acc.start_time :=
          abs_of_nonneg (by linarith)
        rw [h1, h2] at hadj
        rcases hadj with hadj | hadj <;> linarith
    rw [mergeLoop, if_neg hcond, ih c hchain]

/-- Strict separation rules out overlap and tolerance-adjacency in both orders. -/
theorem SepV.no_overlap_no_adjacency {a b : MuteSegment} (h : SepV a b) :
    ¬ a.overlaps_with b ∧ ¬ b.overlaps_with a ∧
    ¬ a.is_adjacent_to b ∧ ¬ b.is_adjacent_to a := by
  obtain ⟨hsep, ha, hb⟩ := h
  have hten : (0:ℚ) < 1/10 := by norm_num
  have h1 : |a.end_time - b.start_time| = b.start_time - a.end_time := by
    rw [abs_sub_comm]
    exact abs_of_nonneg (by linarith)
  have h2 : |b.end_time - a.start_time| = b.end_time - a.start_time :=
    abs_of_nonneg (by linarith)
  refine ⟨fun hov => ?_, fun hov => ?_, fun hadj => ?_, fun hadj => ?_⟩
  · exact absurd hov.2 (by simp only [gt_iff_lt, not_lt]; linarith)
  · exact absurd hov.1 (by simp only [not_lt]; linarith)
  · rw [MuteSegment.is_adjacent_to, min_le_iff, h1, h2] at hadj
    rcases hadj with hadj | hadj <;> linarith
  · rw [MuteSegment.is_adjacent_to, min_le_iff, h2, h1] at hadj
    rcases hadj with hadj | hadj <;> linarith

theorem SepV.start_le {a b : MuteSegment} (h : SepV a b) :
    a.start_time ≤ b.start_time := by
  obtain ⟨hsep, ha, hb⟩ := h
  have : (0:ℚ) < 1/10 := by norm_num
  linarith

theorem merge_eq_nil {x : List MuteSegment} (hs : sortSegments x = []) :
    merge_overlapping_segments x = [] := by
  unfold merge_overlapping_segments
  rw [hs]

theorem merge_eq_mergeLoop {x : List MuteSegment} {h : MuteSegment} {t : List MuteSegment}
    (hs : sortSegments x = h :: t) : merge_overlapping_segments x = mergeLoop h t := by
  unfold merge_overlapping_segments
  rw [hs]

/-- The merged output is pairwise strictly separated and time-ordered. -/
theorem merge_spec (x : List MuteSegment) (hv : ∀ s ∈ x, s.start_time < s.end_time) :
    (merge_overlapping_segments x).Pairwise SepV ∧
    ∀ s ∈ merge_overlapping_segments x, s.start_time < s.end_time := by
  have hpw := sortSegments_pairwise x
  cases hs : sortSegments x with
  | nil => simp [merge_eq_nil hs]
  | cons h t =>
    have hmem : ∀ s ∈ h :: t, s ∈ x := fun s hs' => sortSegments_mem.1 (hs ▸ hs')
    rw [hs, List.pairwise_cons] at hpw
    obtain ⟨hd, tl, heq, _, hchain, hvout⟩ :=
      mergeLoop_spec t h (hv h (hmem h (by simp)))
        (fun s hs' => hv s (hmem s (List.mem_cons_of_mem _ hs'))) hpw.1 hpw.2
    rw [merge_eq_mergeLoop hs, heq]
    exact ⟨chainSepV_pairwise hchain, hvout⟩

/-- Merging a pairwise strictly separated list is the identity. -/
theorem merge_of_separated (l : List MuteSegment) (h : l.Pairwise SepV) :
    merge_overlapping_segments l = l := by
  have hsorted : sortSegments l = l := sortSegments_eq_self (h.imp fun hab => hab.start_le)
  cases hl : l with
  | nil => exact merge_eq_nil (hl ▸ hsorted)
  | cons hd tl =>
    rw [merge_eq_mergeLoop (hl ▸ hsorted)]
    exact mergeLoop_of_chain tl hd (List.Pairwise.chain' (hl ▸ h))

/-! Claim theorems about the interval algebra. -/

/-- C4: for every list of (validated) mute segments, merging is idempotent, and
in the merged output no two intervals overlap and no two lie within the 0.1 s
adjacency tolerance of each other, where the gap between two intervals is the
minimum of the two one-sided absolute gaps. -/
theorem merge_idempotent_and_separated (x : List MuteSegment)
    (hv : ∀ s ∈ x, s.start_time < s.end_time) :
    merge_overlapping_segments (merge_overlapping_segments x) = merge_overlapping_segments x ∧
    (merge_overlapping_segments x).Pairwise (fun a b =>
      ¬ a.overlaps_with b ∧ ¬ b.overlaps_with a ∧
      ¬ a.is_adjacent_to b ∧ ¬ b.is_adjacent_to a) := by
  obtain ⟨hpw, _⟩ := merge_spec x hv
  exact ⟨merge_of_separated _ hpw, hpw.imp fun h => h.no_overlap_no_adjacency⟩

/-- Witness for C4 at a concrete two-segment input. -/
theorem merge_idempotent_and_separated_witness :
    (∀ s ∈ ([⟨0, 1, "a", 1⟩, ⟨5, 6, "b", 1⟩] : List MuteSegment),
      s.start_time < s.end_time) ∧
    (merge_overlapping_segments
        (merge_overlapping_segments [⟨0, 1, "a", 1⟩, ⟨5, 6, "b", 1⟩]) =
      merge_overlapping_segments [⟨0, 1, "a", 1⟩, ⟨5, 6, "b", 1⟩] ∧
    (merge_overlapping_segments ([⟨0, 1, "a", 1⟩, ⟨5, 6, "b", 1⟩] :
        List MuteSegment)).Pairwise (fun a b =>
      ¬ a.overlaps_with b ∧ ¬ b.overlaps_with a ∧
      ¬ a.is_adjacent_to b ∧ ¬ b.is_adjacent_to a)) :=
  ⟨by decide, merge_idempotent_and_separated _ (by decide)⟩

/-- C7: merging the segments (10, 11, "a") and (11.05, 12, "b") under the
default 0.1 s tolerance yields the single segment (10, 12) labelled "a+b" whose
confidence is the minimum of the two inputs' confidences. -/
theorem merge_example_adjacent (c₁ c₂ : ℚ) :
    merge_overlapping_segments
      [⟨10, 11, "a", c₁⟩, ⟨(11.05 : ℚ), 12, "b", c₂⟩] =
      [⟨10, 12, "a+b", min c₁ c₂⟩] := by
  have hs : sortSegments [⟨10, 11, "a", c₁⟩, ⟨(11.05 : ℚ), 12, "b", c₂⟩] =
      [⟨10, 11, "a", c₁⟩, ⟨(11.05 : ℚ), 12, "b", c₂⟩] := by
    refine sortSegments_eq_self ?_
    refine List.pairwise_cons.2 ⟨?_, by simp⟩
    intro b hb
    rcases List.mem_cons.1 hb with hb | hb
    · rw [hb]
      norm_num
    · simp at hb
  rw [merge_eq_mergeLoop hs, mergeLoop, if_pos, mergeLoop]
  · have h1 : min (10 : ℚ) 11.05 = 10 := by norm_num
    have h2 : max (11 : ℚ) 12 = 12 := by norm_num
    simp [MuteSegment.merge_with, h1, h2]
  · refine Or.inr ?_
    rw [MuteSegment.is_adjacent_to]
    refine min_le_iff.2 (Or.inr ?_)
    have : |(11 : ℚ) - 11.05| = 0.05 := by
      rw [show (11 : ℚ) - 11.05 = -0.05 by norm_num]
      rw [abs_neg]
      exact abs_of_nonneg (by norm_num)
    rw [this]
    norm_num

/-- C8: padding every segment by zero milliseconds on both sides and re-merging
is the same as merging directly. -/
theorem pad_zero_eq_merge (x : List MuteSegment) (hv : ∀ s ∈ x, 0 ≤ s.start_time) :
    add_padding_to_segments x 0 0 = merge_overlapping_segments x := by
  have hpad : ∀ s : MuteSegment, 0 ≤ s.start_time → s.add_padding 0 0 = s := by
    intro s h
    cases s with
    | mk st en w c => simp [MuteSegment.add_padding, max_eq_right h]
  have hmap : ∀ l : List MuteSegment, (∀ s ∈ l, 0 ≤ s.start_time) →
      l.map (fun s => s.add_padding 0 0) = l := by
    intro l
    induction l with
    | nil => intro _; rfl
    | cons s rest ih =>
      intro hl
      rw [List.map_cons, hpad s (hl s (by simp)),
        ih fun t ht => hl t (List.mem_cons_of_mem _ ht)]
  unfold add_padding_to_segments
  simp only [Int.cast_zero, zero_div]
  rw [hmap x hv]

/-- Witness for C8 at a concrete input. -/
theorem pad_zero_eq_merge_witness :
    (∀ s ∈ ([⟨2, 3, "x", 1⟩, ⟨3, 4, "y", 1⟩] : List MuteSegment), 0 ≤ s.start_time) ∧
    add_padding_to_segments [⟨2, 3, "x", 1⟩, ⟨3, 4, "y", 1⟩] 0 0 =
      merge_overlapping_segments [⟨2, 3, "x", 1⟩, ⟨3, 4, "y", 1⟩] :=
  ⟨by decide, pad_zero_eq_merge _ (by decide)⟩

/-- C10: Python equality of mute segments is decided solely by timing with a
fixed 0.001 tolerance on both endpoints: labels and confidences are ignored,
segments with different labels compare equal when their times agree, and the
relation is not transitive. -/
theorem eqPy_timing_only :
    (∀ a b : MuteSegment, a.eqPy b ↔
      |a.start_time - b.start_time| < 1/1000 ∧ |a.end_time - b.end_time| < 1/1000) ∧
    MuteSegment.eqPy ⟨1, 2, "hello", 1⟩ ⟨1, 2, "world", 0⟩ ∧
    (MuteSegment.eqPy ⟨0, 10, "a", 1⟩ ⟨(8/10000 : ℚ), 10, "b", 1⟩ ∧
     MuteSegment.eqPy ⟨(8/10000 : ℚ), 10, "b", 1⟩ ⟨(16/10000 : ℚ), 10, "c", 1⟩ ∧
     ¬ MuteSegment.eqPy ⟨0, 10, "a", 1⟩ ⟨(16/10000 : ℚ), 10, "c", 1⟩) := by
  refine ⟨fun a b => Iff.rfl, ?_, ?_, ?_, ?_⟩ <;> with_unfolding_all decide

/-! Zone model (models/scene.py) and the cut-filter compilation
(services/scene_processor.py). -/

/-- Embeds `ProcessingMode`. -/
inductive ProcessingMode where
  | skip
  | blur
  | black
deriving DecidableEq, Repr

/-- Embeds `SkipZone` as plain data; the pydantic construction-time validation
is modelled separately by `mkSkipZone`. -/
structure SkipZone where
  zid : String
  start_time : ℚ
  end_time : ℚ
  start_display : String
  end_display : String
  description : String
  mode : ProcessingMode
  mute : Bool
deriving DecidableEq, Repr

/-- Embeds pydantic construction of `SkipZone`: `start_time` and `end_time`
carry `Field(gt=0)`, one validator requires `end_time > start_time`, another
allows `mute` only with blur or black modes, and `description` carries
`max_length=200`. -/
def mkSkipZone (zid : String) (start_time end_time : ℚ)
    (start_display end_display description : String)
    (mode : ProcessingMode) (mute : Bool) : Except String SkipZone :=
  if ¬ (0 < start_time) then .error "start_time: ensure this value is greater than 0"
  else if ¬ (0 < end_time) then .error "end_time: ensure this value is greater than 0"
  else if 200 < description.length then
    .error "description: ensure this value has at most 200 characters"
  else if end_time ≤ start_time then .error "end_time must be greater than start_time"
  else if mute = true ∧ mode = ProcessingMode.skip then
    .error "mute can only be enabled with blur or black modes"
  else .ok ⟨zid, start_time, end_time, start_display, end_display, description, mode, mute⟩

/-- Insertion step of the stable sort of zones by `start_time`. -/
def insertZone (z : SkipZone) : List SkipZone → List SkipZone
  | [] => [z]
  | t :: ts => if z.start_time ≤ t.start_time then z :: t :: ts else t :: insertZone z ts

/-- Embeds `sorted(zones, key=lambda z: z.start_time)`; Python's sort is stable
and a stable sort by a fixed key is extensionally unique, so this insertion
sort computes the same list. -/
def sortZones : List SkipZone → List SkipZone
  | [] => []
  | z :: rest => insertZone z (sortZones rest)

/-- Embeds the keep-segment sweep of `generate_skip_filter`: emit the gap
before every zone that starts strictly after the running `last_end`, advance
`last_end` to the maximum end seen, and finally emit the tail up to `duration`
when `last_end < duration`. -/
def keepSweep (last_end duration : ℚ) : List SkipZone → List (ℚ × ℚ)
  | [] => if last_end < duration then [(last_end, duration)] else []
  | z :: rest =>
      (if z.start_time > last_end then [(last_end, z.start_time)] else []) ++
        keepSweep (max last_end z.end_time) duration rest

/-- Keep segments of a zone set over `[0, duration]`. -/
def keep_segments (zones : List SkipZone) (duration : ℚ) : List (ℚ × ℚ) :=
  keepSweep 0 duration (sortZones zones)

/-- One trim directive of the cut filter graph (built once for the video
stream and once, identically, for the audio stream): input trimmed from
`start` to `stop` — `stop = none` models the last-segment branch that trims to
the end of the input when the segment end equals `duration` — and then
re-timestamped with `setpts/asetpts PTS-STARTPTS`.  The FFmpeg string syntax
is modelled structurally. -/
structure TrimPart where
  index : ℕ
  start : ℚ
  stop : Option ℚ
  retimestamp : Bool
deriving DecidableEq, Repr

/-- Result of `generate_skip_filter`: either the `("", "")` sentinel returned
both for an empty zone list and for an empty keep list, or the
trim + re-timestamp + concat filter graph. -/
inductive SkipFilterResult where
  | sentinel
  | graph (video_parts audio_parts : List TrimPart) (concat_n : ℕ)
deriving DecidableEq, Repr

/-- Embeds `generate_skip_filter` (services/scene_processor.py): sort the
zones, compute keep segments, and build one trim part per keep segment, in
order, enumerated from 1, concatenated over `n = len(keep_segments)` streams. -/
def generate_skip_filter (zones : List SkipZone) (duration : ℚ) : SkipFilterResult :=
  if zones.isEmpty then .sentinel
  else
    let keep := keep_segments zones duration
    if keep.isEmpty then .sentinel
    else
      let parts : List TrimPart := (keep.enumFrom 1).map fun p =>
        { index := p.1
          start := p.2.1
          stop := if p.2.2 = duration then none else some p.2.2
          retimestamp := true }
      .graph parts parts keep.length

theorem insertZone_mem {x z : SkipZone} {l : List SkipZone} :
    x ∈ insertZone z l ↔ x = z ∨ x ∈ l := by
  induction l with
  | nil => simp [insertZone]
  | cons t ts ih =>
    by_cases h : z.start_time ≤ t.start_time
    · simp [insertZone, h]
    · simp [insertZone, h, ih]
      tauto

theorem sortZones_mem {x : SkipZone} {l : List SkipZone} :
    x ∈ sortZones l ↔ x ∈ l := by
  induction l with
  | nil => simp [sortZones]
  | cons z rest ih => simp [sortZones, insertZone_mem, ih]

theorem insertZone_ne_nil {z : SkipZone} {l : List SkipZone} :
    insertZone z l ≠ [] := by
  cases l with
  | nil => simp [insertZone]
  | cons t ts =>
    rw [insertZone]
    split <;> simp

theorem sortZones_eq_nil {l : List SkipZone} : sortZones l = [] ↔ l = [] := by
  cases l with
  | nil => simp [sortZones]
  | cons z rest => simp [sortZones, insertZone_ne_nil]

/-! Claim theorems about zones and the cut filter. -/

/-- C9: the zone constructor rejects `start_time = 0` (or negative) with a
validation error even when `end_time > start_time` holds, so a zone beginning
at the very start of the video cannot be authored. -/
theorem skipZone_rejects_nonpositive_start (zid : String) (s e : ℚ)
    (d₁ d₂ desc : String) (mode : ProcessingMode) (mute : Bool)
    (hs : s ≤ 0) (he : s < e) :
    mkSkipZone zid s e d₁ d₂ desc mode mute =
      .error "start_time: ensure this value is greater than 0" := by
  rw [mkSkipZone, if_pos (not_lt.2 hs)]

/-- Witness for C9 at `start_time = 0`, `end_time = 5`. -/
theorem skipZone_rejects_nonpositive_start_witness :
    (0 : ℚ) ≤ 0 ∧ (0 : ℚ) < 5 ∧
    mkSkipZone "z" 0 5 "00:00" "00:05" "intro" ProcessingMode.skip false =
      .error "start_time: ensure this value is greater than 0" :=
  ⟨by decide, by decide,
   skipZone_rejects_nonpositive_start "z" 0 5 "00:00" "00:05" "intro"
     ProcessingMode.skip false (by decide) (by decide)⟩

/-- C5: for `zones = [Cut(30, 40)]` and `duration = 100` the keep segments are
exactly `[(0, 30), (40, 100)]`, and the compiled cut filter trims exactly these
two ranges in ascending order, re-timestamps each, and concatenates them into
one continuous output stream over `n = 2` segments. -/
theorem cut_filter_example :
    keep_segments [⟨"z1", 30, 40, "00:30", "00:40", "", ProcessingMode.skip, false⟩] 100 =
      [(0, 30), (40, 100)] ∧
    generate_skip_filter
        [⟨"z1", 30, 40, "00:30", "00:40", "", ProcessingMode.skip, false⟩] 100 =
      .graph [⟨1, 0, some 30, true⟩, ⟨2, 40, none, true⟩]
        [⟨1, 0, some 30, true⟩, ⟨2, 40, none, true⟩] 2 := by
  constructor <;> with_unfolding_all decide

/-- C2 counterexample: a cut-zone set covering the whole of `[0, 100]` produces
zero keep segments, and `generate_skip_filter` returns the `("", "")` sentinel
normally instead of failing: no `CompilationError` is raised (none exists in
the code). -/
theorem full_cover_returns_sentinel :
    keep_segments [⟨"z1", 0, 100, "0", "100", "", ProcessingMode.skip, false⟩] 100 = [] ∧
    generate_skip_filter
        [⟨"z1", 0, 100, "0", "100", "", ProcessingMode.skip, false⟩] 100 = .sentinel := by
  constructor <;> with_unfolding_all decide

/-- C2 amended: when the sweep yields zero keep segments,
`generate_skip_filter` returns the `("", "")` sentinel rather than raising any
error; moreover a nonempty zone set whose zones pass `SkipZone` validation
(`start_time > 0`) always yields at least one keep segment (the head gap before
the first zone), so the degenerate case cannot arise from authored zones. -/
theorem skip_filter_degenerate (zones : List SkipZone) (duration : ℚ) :
    (keep_segments zones duration = [] →
      generate_skip_filter zones duration = .sentinel) ∧
    (zones ≠ [] → (∀ z ∈ zones, 0 < z.start_time) →
      keep_segments zones duration ≠ []) := by
  constructor
  · intro hdeg
    rw [generate_skip_filter]
    by_cases hz : zones.isEmpty
    · rw [if_pos hz]
    · rw [if_neg hz]
      simp only [hdeg, List.isEmpty_nil, if_pos]
  · intro hne hpos
    rw [keep_segments]
    cases hsz : sortZones zones with
    | nil => exact absurd (sortZones_eq_nil.1 hsz) hne
    | cons z rest =>
      have hz : 0 < z.start_time :=
        hpos z (sortZones_mem.1 (hsz ▸ List.mem_cons_self z rest))
      rw [keepSweep, if_pos (by exact hz)]
      simp

/-- Witness for C2's amended statement. -/
theorem skip_filter_degenerate_witness :
    generate_skip_filter [⟨"w", 0, 50, "0", "50", "", ProcessingMode.skip, false⟩] 50 =
      .sentinel ∧
    keep_segments [⟨"w2", 30, 40, "", "", "", ProcessingMode.skip, false⟩] 100 ≠ [] :=
  ⟨(skip_filter_degenerate _ 50).1 (by decide),
   (skip_filter_degenerate _ 100).2 (by decide) (by decide)⟩

/-! Job status tracker (services/processing_queue.py).  `datetime.now()` is
modelled by threading an explicit timestamp string, and each `_save()` of the
status document is modelled by appending the `current_job` snapshot to an
append-only `writes` log. -/

/-- Embeds `JobStep`. -/
structure JobStep where
  name : String
  status : String
  started_at : Option String
  completed_at : Option String
deriving DecidableEq, Repr

/-- Embeds `ProcessingJob`. -/
structure ProcessingJob where
  video_path : String
  video_name : String
  status : String
  steps : List JobStep
  started_at : Option String
  completed_at : Option String
  blur_count : ℕ
  black_count : ℕ
  skip_count : ℕ
  profanity_count : ℕ
  is_batch_mode : Bool
deriving DecidableEq, Repr

/-- State of a `ProcessingQueue`: the in-memory fields plus the log of
`current_job` snapshots written by `_save()`. -/
structure QueueState where
  current_job : Option ProcessingJob
  pending_jobs : List ProcessingJob
  writes : List (Option ProcessingJob)
deriving DecidableEq, Repr

/-- Embeds `Path(video_path).name`. -/
def pathName (p : String) : String := (p.splitOn "/").getLastD p

/-- Pass-1 step of `start_job`, present when blur or black filters exist. -/
def passOneSteps (blur black : ℕ) : List JobStep :=
  if blur ≠ 0 ∨ black ≠ 0 then
    [⟨"Pass 1: Apply " ++ String.intercalate ", "
        ((if blur ≠ 0 then [toString blur ++ " blur"] else []) ++
         (if black ≠ 0 then [toString black ++ " black"] else [])) ++ " filter(s)",
      "pending", none, none⟩]
  else []

/-- Step list built by `start_job` from the filter counts: a pass-1 blur/black
step when either count is nonzero, a cut step when `skip` is nonzero (numbered
pass 2 after a blur/black step, else pass 1), and a single profanity step when
all three counts are zero. -/
def startSteps (blur black skip profanity : ℕ) : List JobStep :=
  (passOneSteps blur black ++
    (if skip ≠ 0 then
      [⟨"Pass " ++ toString (if blur ≠ 0 ∨ black ≠ 0 then (2 : ℕ) else 1) ++
          ": Cut " ++ toString skip ++ " skip zone(s)", "pending", none, none⟩]
     else [])) ++
  (if blur = 0 ∧ black = 0 ∧ skip = 0 then
    [⟨"Mute " ++ toString profanity ++ " profanity segment(s)", "pending", none, none⟩]
   else [])

/-- Embeds `ProcessingQueue.start_job`: build the step list from the counts,
install the new job unconditionally, and save. -/
def start_job (q : QueueState) (video_path : String)
    (blur black skip profanity : ℕ) (is_batch_mode : Bool) (now : String) : QueueState :=
  let job : ProcessingJob :=
    ⟨video_path, pathName video_path, "processing",
     startSteps blur black skip profanity, some now, none,
     blur, black, skip, profanity, is_batch_mode⟩
  { q with current_job := some job, writes := q.writes ++ [some job] }

theorem startSteps_pending (blur black skip profanity : ℕ) :
    ∀ st ∈ startSteps blur black skip profanity,
      st.status = "pending" ∧ st.completed_at = none := by
  intro st hst
  unfold startSteps passOneSteps at hst
  rcases List.mem_append.1 hst with h | h
  · rcases List.mem_append.1 h with h' | h'
    · split at h'
      · rw [List.mem_singleton] at h'
        rw [h']
        exact ⟨rfl, rfl⟩
      · simp at h'
    · split at h'
      · rw [List.mem_singleton] at h'
        rw [h']
        exact ⟨rfl, rfl⟩
      · simp at h'
  · split at h
    · rw [List.mem_singleton] at h
      rw [h]
      exact ⟨rfl, rfl⟩
    · simp at h

/-- Embeds `ProcessingQueue.update_step`: a missing job or an out-of-range
index is a no-op (nothing is saved); otherwise set the step status, stamp
`started_at` on "running" and `completed_at` on "complete"/"failed", and save. -/
def update_step (q : QueueState) (step_index : ℕ) (status : String) (now : String) :
    QueueState :=
  match q.current_job with
  | none => q
  | some job =>
    if h : step_index < job.steps.length then
      let step := job.steps.get ⟨step_index, h⟩
      let step' : JobStep :=
        { step with
          status := status
          started_at := if status = "running" then some now else step.started_at
          completed_at :=
            if status = "complete" ∨ status = "failed" then some now
            else step.completed_at }
      let job' := { job with steps := job.steps.set step_index step' }
      { q with current_job := some job', writes := q.writes ++ [some job'] }
    else q

/-- Embeds `ProcessingQueue.complete_job`: with no current job do nothing;
otherwise set the overall status from `success`, stamp `completed_at`,
force-complete every still pending/running step (stamping `completed_at` when
absent), save, clear the current job, and save again. -/
def complete_job (q : QueueState) (success : Bool) (now : String) : QueueState :=
  match q.current_job with
  | none => q
  | some job =>
    let job' : ProcessingJob :=
      { job with
        status := if success then "complete" else "failed"
        completed_at := some now
        steps := job.steps.map fun step =>
          if step.status = "pending" ∨ step.status = "running" then
            { step with
              status := if success then "complete" else "failed"
              completed_at :=
                if step.completed_at = none then some now else step.completed_at }
          else step }
    { q with current_job := none, writes := q.writes ++ [some job', none] }

/-- Completing a job with `success = false` persists a failed snapshot whose
fresh (still pending, unstamped) steps are all failed and stamped, then clears
the current job. -/
theorem complete_job_fail_spec (q : QueueState) (job : ProcessingJob) (now : String)
    (hj : q.current_job = some job)
    (hp : ∀ st ∈ job.steps, st.status = "pending" ∧ st.completed_at = none) :
    ∃ j, complete_job q false now =
        { q with current_job := none, writes := q.writes ++ [some j, none] } ∧
      j.status = "failed" ∧
      ∀ st ∈ j.steps, st.status = "failed" ∧ st.completed_at = some now := by
  simp only [complete_job, hj]
  refine ⟨_, rfl, rfl, ?_⟩
  intro st hst
  rw [List.mem_map] at hst
  obtain ⟨s₀, hs₀, rfl⟩ := hst
  obtain ⟨h1, h2⟩ := hp s₀ hs₀
  simp [h1, h2]

/-- C6: starting a job with one blur zone and one cut zone creates exactly two
steps; completing with `success = false` then marks the persisted job failed
with every step failed and stamped, and clears the current job; and a later
`start_job` installs a job that does not depend on the prior state. -/
theorem job_lifecycle (q : QueueState) (v : String) (p : ℕ) (t₁ t₂ : String)
    (q' q'' : QueueState) (v' : String) (b₁ b₂ sk pr : ℕ) (bm : Bool) (t₃ : String) :
    (∃ j, (start_job q v 1 0 1 p false t₁).current_job = some j ∧ j.steps.length = 2) ∧
    (complete_job (start_job q v 1 0 1 p false t₁) false t₂).current_job = none ∧
    (∃ j, (complete_job (start_job q v 1 0 1 p false t₁) false t₂).writes =
        (start_job q v 1 0 1 p false t₁).writes ++ [some j, none] ∧
      j.status = "failed" ∧
      ∀ st ∈ j.steps, st.status = "failed" ∧ st.completed_at = some t₂) ∧
    (start_job q' v' b₁ b₂ sk pr bm t₃).current_job =
      (start_job q'' v' b₁ b₂ sk pr bm t₃).current_job := by
  obtain ⟨j, hjw, hjs, hjst⟩ :=
    complete_job_fail_spec (start_job q v 1 0 1 p false t₁)
      ⟨v, pathName v, "processing", startSteps 1 0 1 p, some t₁, none,
       1, 0, 1, p, false⟩ t₂ rfl (startSteps_pending 1 0 1 p)
  refine ⟨⟨_, rfl, rfl⟩, ?_, ⟨j, ?_, hjs, hjst⟩, rfl⟩
  · rw [hjw]
  · rw [hjw]

/-! Pipeline orchestration (services/video_processor.py,
`VideoProcessor.process_video` from step 2.5 on, after subtitle loading and
profanity detection, with a processing queue attached).  Engine invocations
are modelled by an oracle `engineOk` indexed by invocation order; file copies,
duration probes and temp-file cleanup have no bearing on the modelled control
flow, counts or queue state.  `combine_video_filters` returns a nonempty
filter string exactly when a blur or black zone exists, so its truthiness is
modelled by that disjunction; the skip-filter string built by
`generate_skip_filter` is passed to the engine and plays no role in the
control flow. -/

/-- Embeds `VideoSceneFilters.get_zones_by_mode`. -/
def get_zones_by_mode (zones : List SkipZone) (m : ProcessingMode) : List SkipZone :=
  zones.filter fun z => z.mode = m

/-- Embeds `VideoSceneFilters.get_mute_zones`. -/
def get_mute_zones (zones : List SkipZone) : List SkipZone :=
  zones.filter fun z => z.mute

/-- Outcome of one `process_video` run: engine invocations performed, whether
the source was copied directly, the final `ProcessingResult` status and error,
and the final queue state. -/
structure PipelineResult where
  passesRun : ℕ
  copiedDirect : Bool
  resultStatus : String
  errorMessage : Option String
  queue : QueueState
deriving DecidableEq, Repr

/-- Embeds the control flow of `VideoProcessor.process_video`: scene-mute
zones extend the detected segments; with no segments and no blur/black filter
the source is copied directly (status success, no job started, no engine call);
otherwise segments are padded and merged, a job is started, and the
blur/black pass, the cut pass and the audio-only pass run under the branch
structure of the source, with each engine failure returning immediately. -/
def process_video (q : QueueState) (video_path : String)
    (detected : List MuteSegment) (zones : List SkipZone)
    (engineOk : ℕ → Bool) (before_ms after_ms : ℤ) (now : String) : PipelineResult :=
  let skip_zones := get_zones_by_mode zones ProcessingMode.skip
  let blur_zones := get_zones_by_mode zones ProcessingMode.blur
  let black_zones := get_zones_by_mode zones ProcessingMode.black
  let scene_mute_segments := (get_mute_zones zones).map fun z =>
    MuteSegment.mk z.start_time z.end_time "[scene_mute]" 1
  let segments := detected ++ scene_mute_segments
  if segments.isEmpty ∧ blur_zones.isEmpty ∧ black_zones.isEmpty then
    { passesRun := 0, copiedDirect := true, resultStatus := "success",
      errorMessage := none, queue := q }
  else
    let padded := add_padding_to_segments segments before_ms after_ms
    let q₁ := start_job q video_path blur_zones.length black_zones.length
      skip_zones.length padded.length false now
    if ¬ blur_zones.isEmpty ∨ ¬ black_zones.isEmpty then
      let q₂ := update_step q₁ 0 "running" now
      if ¬ engineOk 0 then
        { passesRun := 1, copiedDirect := false, resultStatus := "failed",
          errorMessage := some "Pass 1 (BLUR/BLACK) failed", queue := q₂ }
      else
        let q₃ := update_step q₂ 0 "complete" now
        if ¬ skip_zones.isEmpty then
          let q₄ := update_step q₃ 1 "running" now
          if ¬ engineOk 1 then
            { passesRun := 2, copiedDirect := false, resultStatus := "failed",
              errorMessage := some "Pass 2 (SKIP) failed", queue := q₄ }
          else
            let q₅ := update_step q₄ 1 "complete" now
            { passesRun := 2, copiedDirect := false, resultStatus := "success",
              errorMessage := none, queue := complete_job q₅ true now }
        else
          { passesRun := 1, copiedDirect := false, resultStatus := "success",
            errorMessage := none, queue := complete_job q₃ true now }
    else if ¬ skip_zones.isEmpty then
      let q₂ := update_step q₁ 0 "running" now
      if ¬ engineOk 0 then
        { passesRun := 1, copiedDirect := false, resultStatus := "failed",
          errorMessage := some "SKIP processing failed", queue := q₂ }
      else
        let q₃ := update_step q₂ 0 "complete" now
        { passesRun := 1, copiedDirect := false, resultStatus := "success",
          errorMessage := none, queue := complete_job q₃ true now }
    else
      let q₂ := update_step q₁ 0 "running" now
      let ok := engineOk 0
      let q₃ := update_step q₂ 0 (if ok then "complete" else "failed") now
      { passesRun := 1, copiedDirect := false,
        resultStatus := if ok then "success" else "failed",
        errorMessage := if ok then none else some "FFmpeg processing failed",
        queue := complete_job q₃ ok now }

/-- C1: with a zone set containing only one Cut zone and zero mute intervals,
the pipeline takes the clean-copy early exit — zero engine passes, the source
copied directly to the destination, result successful, no job ever started —
so the cut filter is never applied, contrary to the §4.3 decision-table row
requiring one cut pass. -/
theorem cut_only_no_mutes_copies_directly :
    process_video ⟨none, [], []⟩ "v.mp4" []
      [⟨"z1", 30, 40, "00:30", "00:40", "", ProcessingMode.skip, false⟩]
      (fun _ => true) 500 500 "t" =
    { passesRun := 0, copiedDirect := true, resultStatus := "success",
      errorMessage := none, queue := ⟨none, [], []⟩ } := by
  with_unfolding_all decide

/-- C3: when pass 1 of a two-pass plan (one blur zone, one cut zone) fails, no
further passes run, but the job tracker is left with the overall job still
"processing" and its first step still "running": neither the step nor the job
is marked failed and `complete_job` is never invoked. -/
theorem pass1_failure_leaves_job_processing :
    (process_video ⟨none, [], []⟩ "v.mp4" []
        [⟨"b1", 5, 8, "00:05", "00:08", "", ProcessingMode.blur, false⟩,
         ⟨"z1", 30, 40, "00:30", "00:40", "", ProcessingMode.skip, false⟩]
        (fun _ => false) 500 500 "t").passesRun = 1 ∧
    (process_video ⟨none, [], []⟩ "v.mp4" []
        [⟨"b1", 5, 8, "00:05", "00:08", "", ProcessingMode.blur, false⟩,
         ⟨"z1", 30, 40, "00:30", "00:40", "", ProcessingMode.skip, false⟩]
        (fun _ => false) 500 500 "t").resultStatus = "failed" ∧
    ((process_video ⟨none, [], []⟩ "v.mp4" []
        [⟨"b1", 5, 8, "00:05", "00:08", "", ProcessingMode.blur, false⟩,
         ⟨"z1", 30, 40, "00:30", "00:40", "", ProcessingMode.skip, false⟩]
        (fun _ => false) 500 500 "t").queue.current_job.map fun j =>
      (j.status, j.steps.map JobStep.status)) =
      some ("processing", ["running", "pending"]) := by
  refine ⟨?_, ?_, ?_⟩ <;> with_unfolding_all decide

end Cleanvid
